import Mathlib

/-!
Verification of the streaming XML query-and-mutation engine
(`src/xml/modifier.rs` and the `XmlElement` display form of
`src/structs.rs`).

Modelling conventions (shallow embedding):

* Rust `String`/`&str` values are modelled as `List Char` (`Str`).  The
  source manipulates byte indices; on ASCII data byte indices and char
  indices coincide, and where byte granularity is observable (the
  50-byte truncation of `XmlElement::display`) we model UTF-8 byte
  lengths explicitly with `charBytesLen`.
* A fallible Rust slice `&s[a..b]` (which panics when `a > b` or the
  bounds overrun) is modelled by `rustSlice : .. -> Option Str`; `none`
  models the panic.  Functions that can panic therefore return `Option`.
* The quick_xml token stream is modelled by `Event`: the document held
  by an `XmlModifier` is its parsed event list, and the `Reader`/
  `Writer` pair of the external quick_xml crate (not part of this
  repository) is taken as the identity between a well-formed event list
  and its serialization.  "Byte-identical content" at the level of this
  model is equality of event lists.
* Each mutator is a fold over the event list mirroring the Rust event
  loop; the final content swap `if modified { *content = new }` is the
  `if fin.modified then fin.out else doc` in the wrappers.
-/

namespace Z

/-- Rust strings, modelled as lists of characters. -/
abbrev Str := List Char

/-- Rust `str::find` for a substring: index of the first occurrence of
`pat` in `s`, if any (`find` of a `char` is the one-character case). -/
def findSub (pat : Str) : Str → Option Nat
  | [] => if pat = [] then some 0 else none
  | c :: rest =>
    if pat.isPrefixOf (c :: rest) then some 0
    else (findSub pat rest).map (· + 1)

/-- Rust slice `&s[a..b]`: `none` models the panic when `a > b` or
`b > s.length`. -/
def rustSlice (s : Str) (a b : Nat) : Option Str :=
  if a ≤ b ∧ b ≤ s.length then some ((s.drop a).take (b - a)) else none

/-- Rust `str::trim_matches(c)`: removes ALL leading and trailing
occurrences of `c`. -/
def trimMatches (c : Char) (s : Str) : Str :=
  ((s.dropWhile (· = c)).reverse.dropWhile (· = c)).reverse

/-- Rust `str::trim`: removes leading and trailing whitespace. -/
def trimWs (s : Str) : Str :=
  ((s.dropWhile Char.isWhitespace).reverse.dropWhile Char.isWhitespace).reverse

/-- `path_stack.join("/")` of `modifier.rs`. -/
def joinPath (stack : List Str) : Str :=
  List.intercalate ['/'] stack

/-- `path_matches` of `modifier.rs` (lines 492-498): raw string
`ends_with` on the joined path, plus bare-name matching when the
pattern has no slash. -/
def path_matches (current_path : Str) (name : Str) (pattern : Str) : Bool :=
  if pattern.contains '/' then
    List.isSuffixOf pattern current_path || current_path == pattern
  else
    List.isSuffixOf pattern current_path || current_path == pattern
      || name == pattern

/-- `parse_pattern` of `modifier.rs` (lines 501-519).  `find(']')`
searches from the start of the whole string, so when the first `]`
precedes the `[@` the slice `pattern[bracket_start + 2..bracket_end]`
panics (`none`).  The attribute value is `trim_matches('\'')` then
`trim_matches('"')`, i.e. every surrounding single quote is removed and
then every surrounding double quote. -/
def parse_pattern (pattern : Str) : Option (Str × Option (Str × Str)) :=
  match findSub ['[', '@'] pattern with
  | some bracket_start =>
    match findSub [']'] pattern with
    | some bracket_end =>
      match rustSlice pattern (bracket_start + 2) bracket_end with
      | none => none
      | some attr_part =>
        match findSub ['='] attr_part with
        | some eq_pos =>
          some (pattern.take bracket_start,
            some (attr_part.take eq_pos,
              trimMatches '"' (trimMatches '\'' (attr_part.drop (eq_pos + 1)))))
        | none => some (pattern, none)
    | none => some (pattern, none)
  | none => some (pattern, none)

/-- `check_attr_filter` of `modifier.rs`: the element's attributes
contain an exact (name, value) pair, or there is no filter. -/
def check_attr_filter (attrs : List (Str × Str)) (filter : Option (Str × Str)) : Bool :=
  match filter with
  | some (fn, fv) => attrs.any (fun a => a.1 == fn && a.2 == fv)
  | none => true

/-- Loop body of `build_element_with_attr`: rebuilds the attribute
list, replacing every pair whose key equals `an` by `(an, av)`, and
reports whether any key matched. -/
def bewaLoop (an av : Str) : List (Str × Str) → List (Str × Str) × Bool
  | [] => ([], false)
  | kv :: rest =>
    let r := bewaLoop an av rest
    if kv.1 == an then ((an, av) :: r.1, true) else (kv :: r.1, r.2)

/-- `build_element_with_attr` of `modifier.rs` (attribute-list part):
replace in place if the key exists, else append. -/
def build_element_with_attr (origAttrs : List (Str × Str)) (an av : Str) :
    List (Str × Str) :=
  let r := bewaLoop an av origAttrs
  if r.2 then r.1 else r.1 ++ [(an, av)]

/-- A quick_xml event, the unit the mutators read and write.
`other` stands for the events the loops pass through untouched
(comments, CData, processing instructions, declarations). -/
inductive Event where
  | start (name : Str) (attrs : List (Str × Str))
  | close (name : Str)
  | empty (name : Str) (attrs : List (Str × Str))
  | text (s : Str)
  | other (s : Str)
  deriving DecidableEq

/-- `XmlElement` of `structs.rs`. -/
structure XmlElement where
  path : Str
  name : Str
  attributes : List (Str × Str)
  text : Option Str
  depth : Nat
  deriving DecidableEq

/-- UTF-8 byte length of one character (Rust `char::len_utf8`). -/
def charBytesLen (c : Char) : Nat :=
  if c.val < 0x80 then 1
  else if c.val < 0x800 then 2
  else if c.val < 0x10000 then 3
  else 4

/-- Rust `str::len`: length in bytes. -/
def byteLen (s : Str) : Nat :=
  (s.map charBytesLen).sum

/-- Rust slice `&s[..n]` with `n` a byte index: `none` models the panic
when `n` overruns the string or falls inside a multi-byte character. -/
def byteSlicePrefix : Str → Nat → Option Str
  | _, 0 => some []
  | [], _ + 1 => none
  | c :: rest, n + 1 =>
    if charBytesLen c ≤ n + 1 then
      (byteSlicePrefix rest (n + 1 - charBytesLen c)).map (c :: ·)
    else none

/-- Rust `str::replace('\n', "\\n")`. -/
def replaceNl : Str → Str
  | [] => []
  | c :: rest =>
    if c = '\n' then '\\' :: 'n' :: replaceNl rest else c :: replaceNl rest

/-- One `k="v"` item of the attribute clause of `XmlElement::display`. -/
def attrItem (kv : Str × Str) : Str :=
  kv.1 ++ ['=', '"'] ++ kv.2 ++ ['"']

/-- `XmlElement::display` of `structs.rs` (lines 427-457).  The
truncation test `t.len() > 50` counts bytes and `&t[..50]` slices at
byte 50; `none` models the panic when byte 50 is not a character
boundary. -/
def XmlElement.display (e : XmlElement) : Option Str :=
  let attrs : Str :=
    if e.attributes = [] then []
    else [' ', '['] ++
      List.intercalate (", ".toList) (e.attributes.map attrItem) ++ [']']
  match e.text with
  | none => some (e.path ++ attrs)
  | some t =>
    let preview : Option Str :=
      if byteLen t > 50 then (byteSlicePrefix t 50).map (· ++ "...".toList)
      else some t
    preview.map (fun p =>
      e.path ++ attrs ++ ([':', ' ', '"'] ++ replaceNl p ++ ['"']))

/-- State of the `get_structure` loop: the element records produced so
far and the stack of open element names. -/
structure GSState where
  elements : List XmlElement
  stack : List Str
  deriving DecidableEq

/-- `elements.last_mut()` text assignment of `get_structure`: set the
text of the most recently appended element (overwriting any earlier
value); no-op on an empty list. -/
def setLastText : List XmlElement → Str → List XmlElement
  | [], _ => []
  | [e], t => [{ e with text := some t }]
  | e :: e2 :: rest, t => e :: setLastText (e2 :: rest) t

/-- One iteration of the `get_structure` event loop
(`modifier.rs` lines 56-121). -/
def gsStep (st : GSState) (ev : Event) : GSState :=
  match ev with
  | .start name attrs =>
    let stack := st.stack ++ [name]
    { elements := st.elements ++
        [{ path := joinPath stack, name := name, attributes := attrs,
           text := none, depth := stack.length - 1 }],
      stack := stack }
  | .text s =>
    let t := trimWs s
    if t = [] then st else { st with elements := setLastText st.elements t }
  | .close _ => { st with stack := st.stack.dropLast }
  | .empty name attrs =>
    let stack := st.stack ++ [name]
    { elements := st.elements ++
        [{ path := joinPath stack, name := name, attributes := attrs,
           text := none, depth := stack.length - 1 }],
      stack := st.stack }
  | .other _ => st

/-- The `get_structure` loop over an event list. -/
def gsRun : GSState → List Event → GSState
  | st, [] => st
  | st, ev :: rest => gsRun (gsStep st ev) rest

/-- `get_structure` of `modifier.rs`: one forward pass producing the
ordered element records (the event-list model has no malformed
documents, so the error branch does not arise). -/
def get_structure (doc : List Event) : List XmlElement :=
  (gsRun ⟨[], []⟩ doc).elements

/-- State of the `update_text` loop. -/
structure UTState where
  stack : List Str
  out : List Event
  modified : Bool
  in_target : Bool
  deriving DecidableEq

/-- One iteration of the `update_text` event loop
(`modifier.rs` lines 182-217).  Note `in_target` is recomputed at every
open tag and cleared at every close tag; `Empty` and `other` events
fall into the pass-through arm and leave it untouched. -/
def utStep (pat : Str) (filt : Option (Str × Str)) (newText : Str)
    (st : UTState) (ev : Event) : UTState :=
  match ev with
  | .start name attrs =>
    let stack := st.stack ++ [name]
    let matches_path := path_matches (joinPath stack) name pat
    let attr_matches := check_attr_filter attrs filt
    { stack := stack, out := st.out ++ [ev], modified := st.modified,
      in_target := matches_path && attr_matches && !st.modified }
  | .text _ =>
    if st.in_target && !st.modified then
      { st with out := st.out ++ [.text newText], modified := true }
    else
      { st with out := st.out ++ [ev] }
  | .close _ =>
    let st1 :=
      if st.in_target && !st.modified then
        { st with out := st.out ++ [.text newText], modified := true }
      else st
    { st1 with
      in_target := false
      stack := st1.stack.dropLast
      out := st1.out ++ [ev] }
  | _ => { st with out := st.out ++ [ev] }

/-- The `update_text` loop over an event list. -/
def utRun (pat : Str) (filt : Option (Str × Str)) (newText : Str) :
    UTState → List Event → UTState
  | st, [] => st
  | st, ev :: rest => utRun pat filt newText (utStep pat filt newText st ev) rest

/-- `update_text` of `modifier.rs` (lines 171-225): parse the pattern
(`none` propagates the `parse_pattern` panic), run the loop, and swap
the content only when `modified`. -/
def update_text (doc : List Event) (pattern new_text : Str) :
    Option (Bool × List Event) :=
  match parse_pattern pattern with
  | none => none
  | some (pat, filt) =>
    let fin := utRun pat filt new_text ⟨[], [], false, false⟩ doc
    some (fin.modified, if fin.modified then fin.out else doc)

/-- State of the `set_attribute` loop. -/
structure SAState where
  stack : List Str
  out : List Event
  modified : Bool
  deriving DecidableEq

/-- One iteration of the `set_attribute` event loop
(`modifier.rs` lines 246-292). -/
def saStep (pat : Str) (filt : Option (Str × Str)) (an av : Str)
    (st : SAState) (ev : Event) : SAState :=
  match ev with
  | .start name attrs =>
    let stack := st.stack ++ [name]
    let matches_path := path_matches (joinPath stack) name pat
    let attr_matches := check_attr_filter attrs filt
    if matches_path && attr_matches && !st.modified then
      { stack := stack,
        out := st.out ++ [.start name (build_element_with_attr attrs an av)],
        modified := true }
    else
      { stack := stack, out := st.out ++ [ev], modified := st.modified }
  | .close _ =>
    { st with stack := st.stack.dropLast, out := st.out ++ [ev] }
  | .empty name attrs =>
    let matches_path := path_matches (joinPath (st.stack ++ [name])) name pat
    let attr_matches := check_attr_filter attrs filt
    if matches_path && attr_matches && !st.modified then
      { st with
        out := st.out ++ [.empty name (build_element_with_attr attrs an av)],
        modified := true }
    else
      { st with out := st.out ++ [ev] }
  | _ => { st with out := st.out ++ [ev] }

/-- The `set_attribute` loop over an event list. -/
def saRun (pat : Str) (filt : Option (Str × Str)) (an av : Str) :
    SAState → List Event → SAState
  | st, [] => st
  | st, ev :: rest => saRun pat filt an av (saStep pat filt an av st ev) rest

/-- `set_attribute` of `modifier.rs` (lines 231-300). -/
def set_attribute (doc : List Event) (pattern an av : Str) :
    Option (Bool × List Event) :=
  match parse_pattern pattern with
  | none => none
  | some (pat, filt) =>
    let fin := saRun pat filt an av ⟨[], [], false⟩ doc
    some (fin.modified, if fin.modified then fin.out else doc)

/-- State of the `delete_element` loop. -/
structure DEState where
  stack : List Str
  out : List Event
  modified : Bool
  skip_depth : Option Nat
  deriving DecidableEq

/-- One iteration of the `delete_element` event loop
(`modifier.rs` lines 317-383). -/
def deStep (pat : Str) (filt : Option (Str × Str))
    (st : DEState) (ev : Event) : DEState :=
  match ev with
  | .start name attrs =>
    let stack := st.stack ++ [name]
    if st.skip_depth.isSome then { st with stack := stack }
    else
      let matches_path := path_matches (joinPath stack) name pat
      let attr_matches := check_attr_filter attrs filt
      if matches_path && attr_matches && !st.modified then
        { st with
          stack := stack
          modified := true
          skip_depth := some stack.length }
      else
        { st with stack := stack, out := st.out ++ [ev] }
  | .close _ =>
    let depth := st.stack.length
    let stack := st.stack.dropLast
    match st.skip_depth with
    | some skip_at =>
      if depth = skip_at then { st with stack := stack, skip_depth := none }
      else { st with stack := stack }
    | none => { st with stack := stack, out := st.out ++ [ev] }
  | .empty name attrs =>
    if st.skip_depth = none then
      let matches_path := path_matches (joinPath (st.stack ++ [name])) name pat
      let attr_matches := check_attr_filter attrs filt
      if matches_path && attr_matches && !st.modified then
        { st with modified := true }
      else
        { st with out := st.out ++ [ev] }
    else st
  | .text _ =>
    if st.skip_depth = none then { st with out := st.out ++ [ev] } else st
  | .other _ =>
    if st.skip_depth = none then { st with out := st.out ++ [ev] } else st

/-- The `delete_element` loop over an event list. -/
def deRun (pat : Str) (filt : Option (Str × Str)) :
    DEState → List Event → DEState
  | st, [] => st
  | st, ev :: rest => deRun pat filt (deStep pat filt st ev) rest

/-- `delete_element` of `modifier.rs` (lines 306-391). -/
def delete_element (doc : List Event) (pattern : Str) :
    Option (Bool × List Event) :=
  match parse_pattern pattern with
  | none => none
  | some (pat, filt) =>
    let fin := deRun pat filt ⟨[], [], false, none⟩ doc
    some (fin.modified, if fin.modified then fin.out else doc)

/-- `write_new_element` of `modifier.rs` (lines 564-587): the event
sequence written for the new child (indentation text, the element with
its attributes and optional sole text, trailing indentation text). -/
def write_new_element (element_name : Str) (attributes : List (Str × Str))
    (text : Option Str) : List Event :=
  [.text "\n    ".toList] ++
  (match text with
   | some txt => [.start element_name attributes, .text txt,
       .close element_name]
   | none => [.empty element_name attributes]) ++
  [.text "\n  ".toList]

/-- State of the `insert_element` loop. -/
structure IEState where
  stack : List Str
  out : List Event
  modified : Bool
  target_depth : Option Nat
  deriving DecidableEq

/-- One iteration of the `insert_element` event loop
(`modifier.rs` lines 414-468).  On a matching self-closing parent the
expansion writes `BytesStart::new(&name)` — an open tag WITHOUT the
original attributes — and its path is `format!("{}/{name}", join)`,
which for an empty stack begins with a slash. -/
def ieStep (pat : Str) (filt : Option (Str × Str)) (element_name : Str)
    (attributes : List (Str × Str)) (text : Option Str)
    (st : IEState) (ev : Event) : IEState :=
  match ev with
  | .start name attrs =>
    let stack := st.stack ++ [name]
    let matches_path := path_matches (joinPath stack) name pat
    let attr_matches := check_attr_filter attrs filt
    let td := if matches_path && attr_matches && !st.modified then
        some stack.length
      else st.target_depth
    { stack := stack, out := st.out ++ [ev], modified := st.modified,
      target_depth := td }
  | .close _ =>
    let depth := st.stack.length
    let st1 :=
      if st.target_depth = some depth && !st.modified then
        { st with
          out := st.out ++ write_new_element element_name attributes text
          modified := true
          target_depth := none }
      else st
    { st1 with stack := st1.stack.dropLast, out := st1.out ++ [ev] }
  | .empty name attrs =>
    let current_path := joinPath st.stack ++ ['/'] ++ name
    let matches_path := path_matches current_path name pat
    let attr_matches := check_attr_filter attrs filt
    if matches_path && attr_matches && !st.modified then
      { st with
        out := st.out ++ [.start name []] ++
          write_new_element element_name attributes text ++ [.close name],
        modified := true }
    else
      { st with out := st.out ++ [ev] }
  | _ => { st with out := st.out ++ [ev] }

/-- The `insert_element` loop over an event list. -/
def ieRun (pat : Str) (filt : Option (Str × Str)) (element_name : Str)
    (attributes : List (Str × Str)) (text : Option Str) :
    IEState → List Event → IEState
  | st, [] => st
  | st, ev :: rest =>
    ieRun pat filt element_name attributes text
      (ieStep pat filt element_name attributes text st ev) rest

/-- `insert_element` of `modifier.rs` (lines 397-477). -/
def insert_element (doc : List Event) (parent_pattern element_name : Str)
    (attributes : List (Str × Str)) (text : Option Str) :
    Option (Bool × List Event) :=
  match parse_pattern parent_pattern with
  | none => none
  | some (pat, filt) =>
    let fin := ieRun pat filt element_name attributes text
      ⟨[], [], false, none⟩ doc
    some (fin.modified, if fin.modified then fin.out else doc)

/-- Events the `update_text` loop passes through its catch-all arm
(self-closing tags, comments, CData, ...): they neither clear nor set
the target flag. -/
def isPassive : Event → Bool
  | .empty _ _ => true
  | .other _ => true
  | _ => false

/-- `noMatchingStart pat filt stack evs = true` says that no open tag
(`Event.start`) of `evs` satisfies the path pattern and attribute
filter, tracking the element stack the same way the mutator loops do.
A document in which every element satisfying the pattern is written as
a self-closing tag satisfies this. -/
def noMatchingStart (pat : Str) (filt : Option (Str × Str)) :
    List Str → List Event → Bool
  | _, [] => true
  | stack, .start n as :: rest =>
    !(path_matches (joinPath (stack ++ [n])) n pat && check_attr_filter as filt)
      && noMatchingStart pat filt (stack ++ [n]) rest
  | stack, .close _ :: rest => noMatchingStart pat filt stack.dropLast rest
  | stack, _ :: rest => noMatchingStart pat filt stack rest

/-- Relative-depth bookkeeping for a deleted subtree: starting `n`
levels inside the skipped element, `skipDelta n evs = some m` when the
events never close past the skipped element and leave the scan `m`
levels inside it. -/
def skipDelta : Nat → List Event → Option Nat
  | n, [] => some n
  | n, .start _ _ :: rest => skipDelta (n + 1) rest
  | n, .close _ :: rest => if n = 0 then none else skipDelta (n - 1) rest
  | n, _ :: rest => skipDelta n rest

theorem utRun_append (pat : Str) (filt : Option (Str × Str)) (nt : Str)
    (st : UTState) (l1 l2 : List Event) :
    utRun pat filt nt st (l1 ++ l2) =
      utRun pat filt nt (utRun pat filt nt st l1) l2 := by
  induction l1 generalizing st with
  | nil => rfl
  | cons ev rest ih => simp [utRun, ih]

theorem saRun_append (pat : Str) (filt : Option (Str × Str)) (an av : Str)
    (st : SAState) (l1 l2 : List Event) :
    saRun pat filt an av st (l1 ++ l2) =
      saRun pat filt an av (saRun pat filt an av st l1) l2 := by
  induction l1 generalizing st with
  | nil => rfl
  | cons ev rest ih => simp [saRun, ih]

theorem deRun_append (pat : Str) (filt : Option (Str × Str))
    (st : DEState) (l1 l2 : List Event) :
    deRun pat filt st (l1 ++ l2) = deRun pat filt (deRun pat filt st l1) l2 := by
  induction l1 generalizing st with
  | nil => rfl
  | cons ev rest ih => simp [deRun, ih]

theorem ieRun_append (pat : Str) (filt : Option (Str × Str)) (en : Str)
    (ats : List (Str × Str)) (txt : Option Str)
    (st : IEState) (l1 l2 : List Event) :
    ieRun pat filt en ats txt st (l1 ++ l2) =
      ieRun pat filt en ats txt (ieRun pat filt en ats txt st l1) l2 := by
  induction l1 generalizing st with
  | nil => rfl
  | cons ev rest ih => simp [ieRun, ih]

/-- Once `update_text` has performed its single modification, every
remaining event is copied to the output verbatim. -/
theorem utRun_verbatim_of_modified (pat : Str) (filt : Option (Str × Str))
    (nt : Str) (evs : List Event) (st : UTState) (h : st.modified = true) :
    (utRun pat filt nt st evs).modified = true ∧
      (utRun pat filt nt st evs).out = st.out ++ evs := by
  induction evs generalizing st with
  | nil => simp [utRun, h]
  | cons ev rest ih =>
    have hstep : (utStep pat filt nt st ev).modified = true ∧
        (utStep pat filt nt st ev).out = st.out ++ [ev] := by
      cases ev <;> simp [utStep, h]
    have hrest := ih _ hstep.1
    refine ⟨hrest.1, ?_⟩
    rw [utRun, hrest.2, hstep.2]
    simp

/-- Once `set_attribute` has performed its single modification, every
remaining event is copied to the output verbatim. -/
theorem saRun_verbatim_of_modified (pat : Str) (filt : Option (Str × Str))
    (an av : Str) (evs : List Event) (st : SAState) (h : st.modified = true) :
    (saRun pat filt an av st evs).modified = true ∧
      (saRun pat filt an av st evs).out = st.out ++ evs := by
  induction evs generalizing st with
  | nil => simp [saRun, h]
  | cons ev rest ih =>
    have hstep : (saStep pat filt an av st ev).modified = true ∧
        (saStep pat filt an av st ev).out = st.out ++ [ev] := by
      cases ev <;> simp [saStep, h]
    have hrest := ih _ hstep.1
    refine ⟨hrest.1, ?_⟩
    rw [saRun, hrest.2, hstep.2]
    simp

/-- Once `delete_element` has performed its modification and left skip
mode, every remaining event is copied to the output verbatim. -/
theorem deRun_verbatim_of_modified (pat : Str) (filt : Option (Str × Str))
    (evs : List Event) (st : DEState) (h : st.modified = true)
    (hs : st.skip_depth = none) :
    (deRun pat filt st evs).modified = true ∧
      (deRun pat filt st evs).skip_depth = none ∧
      (deRun pat filt st evs).out = st.out ++ evs := by
  induction evs generalizing st with
  | nil => simp [deRun, h, hs]
  | cons ev rest ih =>
    have hstep : (deStep pat filt st ev).modified = true ∧
        (deStep pat filt st ev).skip_depth = none ∧
        (deStep pat filt st ev).out = st.out ++ [ev] := by
      cases ev <;> simp [deStep, h, hs]
    have hrest := ih _ hstep.1 hstep.2.1
    refine ⟨hrest.1, hrest.2.1, ?_⟩
    rw [deRun, hrest.2.2, hstep.2.2]
    simp

/-- Once `insert_element` has performed its single insertion (which
clears the recorded target depth), every remaining event is copied to
the output verbatim. -/
theorem ieRun_verbatim_of_modified (pat : Str) (filt : Option (Str × Str))
    (en : Str) (ats : List (Str × Str)) (txt : Option Str)
    (evs : List Event) (st : IEState) (h : st.modified = true)
    (ht : st.target_depth = none) :
    (ieRun pat filt en ats txt st evs).modified = true ∧
      (ieRun pat filt en ats txt st evs).target_depth = none ∧
      (ieRun pat filt en ats txt st evs).out = st.out ++ evs := by
  induction evs generalizing st with
  | nil => simp [ieRun, h, ht]
  | cons ev rest ih =>
    have hstep : (ieStep pat filt en ats txt st ev).modified = true ∧
        (ieStep pat filt en ats txt st ev).target_depth = none ∧
        (ieStep pat filt en ats txt st ev).out = st.out ++ [ev] := by
      cases ev <;> simp [ieStep, h, ht]
    have hrest := ih _ hstep.1 hstep.2.1
    refine ⟨hrest.1, hrest.2.1, ?_⟩
    rw [ieRun, hrest.2.2, hstep.2.2]
    simp

/-- An `update_text` step that leaves `modified` false copied its event
verbatim (and `modified` was already false). -/
theorem utStep_not_modified (pat : Str) (filt : Option (Str × Str)) (nt : Str)
    (st : UTState) (ev : Event)
    (h : (utStep pat filt nt st ev).modified = false) :
    st.modified = false ∧ (utStep pat filt nt st ev).out = st.out ++ [ev] := by
  cases ev with
  | start n as => exact ⟨h, rfl⟩
  | text s =>
    simp only [utStep] at h ⊢
    split at h
    · simp at h
    · next hc => rw [if_neg hc]; exact ⟨h, rfl⟩
  | close n =>
    simp only [utStep] at h ⊢
    split at h
    · simp at h
    · next hc => rw [if_neg hc]; exact ⟨h, rfl⟩
  | empty n as => exact ⟨h, rfl⟩
  | other s => exact ⟨h, rfl⟩

/-- If a whole `update_text` run ends unmodified, the input was copied
to the output verbatim. -/
theorem utRun_out_of_not_modified (pat : Str) (filt : Option (Str × Str))
    (nt : Str) (evs : List Event) (st : UTState)
    (h : (utRun pat filt nt st evs).modified = false) :
    st.modified = false ∧ (utRun pat filt nt st evs).out = st.out ++ evs := by
  induction evs generalizing st with
  | nil => exact ⟨h, by simp [utRun]⟩
  | cons ev rest ih =>
    rw [utRun] at h
    have hstep : (utStep pat filt nt st ev).modified = false := by
      cases hm : (utStep pat filt nt st ev).modified
      · rfl
      · have := (utRun_verbatim_of_modified pat filt nt rest _ hm).1
        rw [this] at h
        exact Bool.noConfusion h
    obtain ⟨h1, h2⟩ := utStep_not_modified pat filt nt st ev hstep
    obtain ⟨h3, h4⟩ := ih _ h
    refine ⟨h1, ?_⟩
    rw [utRun, h4, h2]
    simp

/-- A `set_attribute` step that leaves `modified` false copied its
event verbatim. -/
theorem saStep_not_modified (pat : Str) (filt : Option (Str × Str)) (an av : Str)
    (st : SAState) (ev : Event)
    (h : (saStep pat filt an av st ev).modified = false) :
    st.modified = false ∧ (saStep pat filt an av st ev).out = st.out ++ [ev] := by
  cases ev with
  | start n as =>
    simp only [saStep] at h ⊢
    split at h
    · simp at h
    · next hc => rw [if_neg hc]; exact ⟨h, rfl⟩
  | close n => exact ⟨h, rfl⟩
  | empty n as =>
    simp only [saStep] at h ⊢
    split at h
    · simp at h
    · next hc => rw [if_neg hc]; exact ⟨h, rfl⟩
  | text s => exact ⟨h, rfl⟩
  | other s => exact ⟨h, rfl⟩

/-- If a whole `set_attribute` run ends unmodified, the input was
copied to the output verbatim. -/
theorem saRun_out_of_not_modified (pat : Str) (filt : Option (Str × Str))
    (an av : Str) (evs : List Event) (st : SAState)
    (h : (saRun pat filt an av st evs).modified = false) :
    st.modified = false ∧ (saRun pat filt an av st evs).out = st.out ++ evs := by
  induction evs generalizing st with
  | nil => exact ⟨h, by simp [saRun]⟩
  | cons ev rest ih =>
    rw [saRun] at h
    have hstep : (saStep pat filt an av st ev).modified = false := by
      cases hm : (saStep pat filt an av st ev).modified
      · rfl
      · have := (saRun_verbatim_of_modified pat filt an av rest _ hm).1
        rw [this] at h
        exact Bool.noConfusion h
    obtain ⟨h1, h2⟩ := saStep_not_modified pat filt an av st ev hstep
    obtain ⟨h3, h4⟩ := ih _ h
    refine ⟨h1, ?_⟩
    rw [saRun, h4, h2]
    simp

/-- No `delete_element` step ever clears the `modified` flag. -/
theorem deStep_modified_mono (pat : Str) (filt : Option (Str × Str))
    (st : DEState) (ev : Event) (h : st.modified = true) :
    (deStep pat filt st ev).modified = true := by
  cases ev <;> simp only [deStep] <;> (repeat' split) <;> simp [h]

/-- `modified` is monotone along a `delete_element` run. -/
theorem deRun_modified_mono (pat : Str) (filt : Option (Str × Str))
    (evs : List Event) (st : DEState) (h : st.modified = true) :
    (deRun pat filt st evs).modified = true := by
  induction evs generalizing st with
  | nil => exact h
  | cons ev rest ih => exact ih _ (deStep_modified_mono pat filt st ev h)

/-- A `delete_element` step outside skip mode that leaves `modified`
false copied its event verbatim and stayed outside skip mode. -/
theorem deStep_not_modified (pat : Str) (filt : Option (Str × Str))
    (st : DEState) (ev : Event)
    (h : (deStep pat filt st ev).modified = false)
    (hs : st.skip_depth = none) :
    st.modified = false ∧ (deStep pat filt st ev).skip_depth = none ∧
      (deStep pat filt st ev).out = st.out ++ [ev] := by
  cases ev with
  | start n as =>
    simp only [deStep, hs, Option.isSome_none, Bool.false_eq_true, if_false] at h ⊢
    split at h
    · simp at h
    · next hc => rw [if_neg hc]; exact ⟨h, rfl, rfl⟩
  | close n =>
    have h' : st.modified = false := by simpa [deStep, hs] using h
    exact ⟨h', by simp [deStep, hs], by simp [deStep, hs]⟩
  | empty n as =>
    simp only [deStep, hs, eq_self_iff_true, if_true] at h ⊢
    split at h
    · simp at h
    · next hc => rw [if_neg hc]; exact ⟨h, rfl, rfl⟩
  | text s =>
    have h' : st.modified = false := by simpa [deStep, hs] using h
    exact ⟨h', by simp [deStep, hs], by simp [deStep, hs]⟩
  | other s =>
    have h' : st.modified = false := by simpa [deStep, hs] using h
    exact ⟨h', by simp [deStep, hs], by simp [deStep, hs]⟩

/-- If a whole `delete_element` run starting outside skip mode ends
unmodified, the input was copied to the output verbatim. -/
theorem deRun_out_of_not_modified (pat : Str) (filt : Option (Str × Str))
    (evs : List Event) (st : DEState)
    (h : (deRun pat filt st evs).modified = false)
    (hs : st.skip_depth = none) :
    st.modified = false ∧ (deRun pat filt st evs).skip_depth = none ∧
      (deRun pat filt st evs).out = st.out ++ evs := by
  induction evs generalizing st with
  | nil => exact ⟨h, hs, by simp [deRun]⟩
  | cons ev rest ih =>
    rw [deRun] at h
    have hstep : (deStep pat filt st ev).modified = false := by
      cases hm : (deStep pat filt st ev).modified
      · rfl
      · have := deRun_modified_mono pat filt rest _ hm
        rw [this] at h
        exact Bool.noConfusion h
    obtain ⟨h1, h2, h3⟩ := deStep_not_modified pat filt st ev hstep hs
    obtain ⟨h4, h5, h6⟩ := ih _ h h2
    refine ⟨h1, h5, ?_⟩
    rw [deRun, h6, h3]
    simp

/-- Passive events (self-closing tags, comments, ...) pass through the
`update_text` loop without touching the stack, the flags, or anything
but the output. -/
theorem utRun_passive (pat : Str) (filt : Option (Str × Str)) (nt : Str)
    (mid : List Event) (st : UTState) (h : mid.all isPassive = true) :
    utRun pat filt nt st mid = { st with out := st.out ++ mid } := by
  induction mid generalizing st with
  | nil => simp [utRun]
  | cons ev rest ih =>
    simp only [List.all_cons, Bool.and_eq_true] at h
    have hstep : utStep pat filt nt st ev = { st with out := st.out ++ [ev] } := by
      cases ev with
      | empty n as => rfl
      | other s => rfl
      | start n as => simp [isPassive] at h
      | text s => simp [isPassive] at h
      | close n => simp [isPassive] at h
    rw [utRun, hstep, ih _ h.2]
    simp

/-- While no open tag satisfies the pattern, `update_text` never sets
its `modified` flag. -/
theorem utRun_of_noMatchingStart (pat : Str) (filt : Option (Str × Str))
    (nt : Str) (evs : List Event) (st : UTState)
    (hm : st.modified = false) (hi : st.in_target = false)
    (hn : noMatchingStart pat filt st.stack evs = true) :
    (utRun pat filt nt st evs).modified = false := by
  induction evs generalizing st with
  | nil => simpa [utRun] using hm
  | cons ev rest ih =>
    rw [utRun]
    cases ev with
    | start n as =>
      simp only [noMatchingStart, Bool.and_eq_true, Bool.not_eq_true'] at hn
      apply ih
      · simpa [utStep] using hm
      · simp [utStep, hn.1]
      · simpa [utStep] using hn.2
    | text s =>
      have hstep : utStep pat filt nt st (.text s) =
          { st with out := st.out ++ [.text s] } := by
        simp [utStep, hi]
      rw [hstep]
      apply ih
      · exact hm
      · exact hi
      · simpa [noMatchingStart] using hn
    | close n =>
      have hstep : utStep pat filt nt st (.close n) =
          { st with
            in_target := false
            stack := st.stack.dropLast
            out := st.out ++ [.close n] } := by
        simp [utStep, hi]
      rw [hstep]
      apply ih
      · exact hm
      · rfl
      · simpa [noMatchingStart] using hn
    | empty n as =>
      apply ih
      · simpa [utStep] using hm
      · simpa [utStep] using hi
      · simpa [utStep, noMatchingStart] using hn
    | other s =>
      apply ih
      · simpa [utStep] using hm
      · simpa [utStep] using hi
      · simpa [utStep, noMatchingStart] using hn

/-- While in skip mode, `delete_element` suppresses every event of the
skipped subtree: nothing is written, the flags are unchanged, and the
stack depth follows `skipDelta`. -/
theorem deRun_skip (pat : Str) (filt : Option (Str × Str)) (body : List Event) :
    ∀ (n m : Nat) (st : DEState) (d : Nat), st.skip_depth = some d →
      st.stack.length = d + n → skipDelta n body = some m →
      (deRun pat filt st body).out = st.out ∧
      (deRun pat filt st body).modified = st.modified ∧
      (deRun pat filt st body).skip_depth = some d ∧
      (deRun pat filt st body).stack.length = d + m := by
  induction body with
  | nil =>
    intro n m st d h1 h2 h3
    simp only [skipDelta, Option.some.injEq] at h3
    subst h3
    exact ⟨rfl, rfl, h1, h2⟩
  | cons ev rest ih =>
    intro n m st d h1 h2 h3
    cases ev with
    | start nm as =>
      have hstep : deStep pat filt st (.start nm as) =
          { st with stack := st.stack ++ [nm] } := by
        simp [deStep, h1]
      rw [deRun, hstep]
      refine ih (n + 1) m _ d h1 ?_ ?_
      · simp [h2]; omega
      · simpa [skipDelta] using h3
    | close nm =>
      have hn0 : n ≠ 0 := by
        intro h0
        rw [h0] at h3
        simp [skipDelta] at h3
      rw [skipDelta, if_neg hn0] at h3
      have hd : ¬(st.stack.length = d) := by
        rw [h2]; omega
      have hstep : deStep pat filt st (.close nm) =
          { st with stack := st.stack.dropLast } := by
        simp [deStep, h1, hd]
      rw [deRun, hstep]
      refine ih (n - 1) m _ d h1 ?_ h3
      simp [List.length_dropLast, h2]
      omega
    | empty nm as =>
      have hstep : deStep pat filt st (.empty nm as) = st := by
        simp [deStep, h1]
      rw [deRun, hstep]
      exact ih n m st d h1 h2 (by simpa [skipDelta] using h3)
    | text s =>
      have hstep : deStep pat filt st (.text s) = st := by
        simp [deStep, h1]
      rw [deRun, hstep]
      exact ih n m st d h1 h2 (by simpa [skipDelta] using h3)
    | other s =>
      have hstep : deStep pat filt st (.other s) = st := by
        simp [deStep, h1]
      rw [deRun, hstep]
      exact ih n m st d h1 h2 (by simpa [skipDelta] using h3)

/-- Setting the text of the most recently appended element rewrites
exactly the final record, whatever its previous text. -/
theorem setLastText_append (e : XmlElement) (t : Str) :
    ∀ es : List XmlElement,
      setLastText (es ++ [e]) t = es ++ [{ e with text := some t }]
  | [] => rfl
  | [a] => rfl
  | a :: b :: es => by
    have ih := setLastText_append e t (b :: es)
    simp only [List.cons_append] at ih ⊢
    show a :: setLastText (b :: (es ++ [e])) t =
      a :: (b :: (es ++ [{ e with text := some t }]))
    rw [ih]

/-- General first-match behaviour of `set_attribute`: if nothing in
`pre` triggered a modification and the next open tag satisfies the
pattern, exactly that tag is rewritten and everything else is copied
verbatim. -/
theorem sa_first_match (pattern pat : Str) (filt : Option (Str × Str))
    (an av : Str) (pre rest : List Event) (n : Str) (as : List (Str × Str))
    (hp : parse_pattern pattern = some (pat, filt))
    (h0 : (saRun pat filt an av ⟨[], [], false⟩ pre).modified = false)
    (hm : path_matches
      (joinPath ((saRun pat filt an av ⟨[], [], false⟩ pre).stack ++ [n])) n pat
      = true)
    (ha : check_attr_filter as filt = true) :
    set_attribute (pre ++ .start n as :: rest) pattern an av =
      some (true, pre ++ .start n (build_element_with_attr as an av) :: rest) := by
  have hpre := (saRun_out_of_not_modified pat filt an av pre ⟨[], [], false⟩ h0).2
  simp only [SAState.out] at hpre
  rw [List.nil_append] at hpre
  have hstep : saStep pat filt an av (saRun pat filt an av ⟨[], [], false⟩ pre)
      (.start n as) =
      { stack := (saRun pat filt an av ⟨[], [], false⟩ pre).stack ++ [n]
        out := (saRun pat filt an av ⟨[], [], false⟩ pre).out ++
          [.start n (build_element_with_attr as an av)]
        modified := true } := by
    simp [saStep, hm, ha, h0]
  have hsplit : saRun pat filt an av ⟨[], [], false⟩ (pre ++ .start n as :: rest) =
      saRun pat filt an av
        (saStep pat filt an av (saRun pat filt an av ⟨[], [], false⟩ pre)
          (.start n as)) rest := by
    rw [saRun_append]
    rfl
  have hfin := saRun_verbatim_of_modified pat filt an av rest
    (saStep pat filt an av (saRun pat filt an av ⟨[], [], false⟩ pre)
      (.start n as)) (by rw [hstep])
  unfold set_attribute
  rw [hp]
  simp only [hsplit, hfin.1, if_true]
  rw [hfin.2, hstep]
  simp [hpre]

/-- The close tag that returns the scan to the recorded skip depth
ends skip mode and is itself suppressed. -/
theorem deStep_close_in_skip (pat : Str) (filt : Option (Str × Str))
    (st : DEState) (m : Str) (d : Nat)
    (hs : st.skip_depth = some d) (hl : st.stack.length = d) :
    deStep pat filt st (.close m) =
      { st with stack := st.stack.dropLast, skip_depth := none } := by
  simp only [deStep, hs]
  rw [if_pos hl]

/-- General first-match behaviour of `delete_element`: if nothing in
`pre` triggered a modification and the next open tag satisfies the
pattern, its whole subtree (through the matching close tag) is
suppressed and everything else is copied verbatim. -/
theorem de_first_match (pattern pat : Str) (filt : Option (Str × Str))
    (pre body rest : List Event) (n m : Str) (as : List (Str × Str))
    (hp : parse_pattern pattern = some (pat, filt))
    (h0 : (deRun pat filt ⟨[], [], false, none⟩ pre).modified = false)
    (hm : path_matches
      (joinPath ((deRun pat filt ⟨[], [], false, none⟩ pre).stack ++ [n])) n pat
      = true)
    (ha : check_attr_filter as filt = true)
    (hb : skipDelta 0 body = some 0) :
    delete_element (pre ++ .start n as :: (body ++ .close m :: rest)) pattern =
      some (true, pre ++ rest) := by
  obtain ⟨-, hskip0, hout0⟩ :=
    deRun_out_of_not_modified pat filt pre ⟨[], [], false, none⟩ h0 rfl
  simp only [DEState.out] at hout0
  rw [List.nil_append] at hout0
  have hstep : deStep pat filt (deRun pat filt ⟨[], [], false, none⟩ pre)
      (.start n as) =
      { stack := (deRun pat filt ⟨[], [], false, none⟩ pre).stack ++ [n]
        out := (deRun pat filt ⟨[], [], false, none⟩ pre).out
        modified := true
        skip_depth :=
          some ((deRun pat filt ⟨[], [], false, none⟩ pre).stack ++ [n]).length } := by
    simp [deStep, hskip0, hm, ha, h0]
  obtain ⟨hsout, hsmod, hsskip, hslen⟩ := deRun_skip pat filt body 0 0
    (deStep pat filt (deRun pat filt ⟨[], [], false, none⟩ pre) (.start n as))
    ((deRun pat filt ⟨[], [], false, none⟩ pre).stack ++ [n]).length
    (by rw [hstep]) (by rw [hstep]; simp) hb
  have hcond : (deRun pat filt
      (deStep pat filt (deRun pat filt ⟨[], [], false, none⟩ pre) (.start n as))
      body).stack.length =
      ((deRun pat filt ⟨[], [], false, none⟩ pre).stack ++ [n]).length := by
    simpa using hslen
  have hstep2 : deStep pat filt
      (deRun pat filt
        (deStep pat filt (deRun pat filt ⟨[], [], false, none⟩ pre) (.start n as))
        body) (.close m) =
      { deRun pat filt
          (deStep pat filt (deRun pat filt ⟨[], [], false, none⟩ pre)
            (.start n as)) body with
        stack := (deRun pat filt
          (deStep pat filt (deRun pat filt ⟨[], [], false, none⟩ pre)
            (.start n as)) body).stack.dropLast
        skip_depth := none } := by
    exact deStep_close_in_skip pat filt _ m _ hsskip hcond
  have hcm : (deStep pat filt
      (deRun pat filt
        (deStep pat filt (deRun pat filt ⟨[], [], false, none⟩ pre) (.start n as))
        body) (.close m)).modified = true := by
    rw [hstep2]
    simp only [DEState.modified]
    rw [hsmod, hstep]
  have hcs : (deStep pat filt
      (deRun pat filt
        (deStep pat filt (deRun pat filt ⟨[], [], false, none⟩ pre) (.start n as))
        body) (.close m)).skip_depth = none := by
    rw [hstep2]
  have hco : (deStep pat filt
      (deRun pat filt
        (deStep pat filt (deRun pat filt ⟨[], [], false, none⟩ pre) (.start n as))
        body) (.close m)).out = pre := by
    rw [hstep2]
    simp only [DEState.out]
    rw [hsout, hstep]
    exact hout0
  have hfin := deRun_verbatim_of_modified pat filt rest _ hcm hcs
  have hsplit : deRun pat filt ⟨[], [], false, none⟩
      (pre ++ .start n as :: (body ++ .close m :: rest)) =
      deRun pat filt
        (deStep pat filt
          (deRun pat filt
            (deStep pat filt (deRun pat filt ⟨[], [], false, none⟩ pre)
              (.start n as)) body) (.close m)) rest := by
    have e1 : pre ++ Event.start n as :: (body ++ Event.close m :: rest) =
        ((pre ++ [Event.start n as]) ++ body) ++ (Event.close m :: rest) := by
      simp
    rw [e1, deRun_append, deRun_append, deRun_append]
    rfl
  unfold delete_element
  rw [hp]
  simp only [hsplit, hfin.1, if_true]
  rw [hfin.2.2, hco]

/-- General replacement behaviour of `update_text`: if nothing in `pre`
triggered a modification, the next open tag satisfies the pattern, and
only passive events separate it from the next text token, that text
token is replaced by the new text and everything else is copied
verbatim. -/
theorem ut_window (pattern pat : Str) (filt : Option (Str × Str)) (nt : Str)
    (pre mid rest : List Event) (n : Str) (as : List (Str × Str)) (t : Str)
    (hp : parse_pattern pattern = some (pat, filt))
    (h0 : (utRun pat filt nt ⟨[], [], false, false⟩ pre).modified = false)
    (hm : path_matches
      (joinPath ((utRun pat filt nt ⟨[], [], false, false⟩ pre).stack ++ [n])) n pat
      = true)
    (ha : check_attr_filter as filt = true)
    (hpass : mid.all isPassive = true) :
    update_text (pre ++ .start n as :: (mid ++ .text t :: rest)) pattern nt =
      some (true, pre ++ .start n as :: (mid ++ .text nt :: rest)) := by
  have hpre := (utRun_out_of_not_modified pat filt nt pre ⟨[], [], false, false⟩ h0).2
  simp only [UTState.out] at hpre
  rw [List.nil_append] at hpre
  have hstep : utStep pat filt nt (utRun pat filt nt ⟨[], [], false, false⟩ pre)
      (.start n as) =
      { stack := (utRun pat filt nt ⟨[], [], false, false⟩ pre).stack ++ [n]
        out := (utRun pat filt nt ⟨[], [], false, false⟩ pre).out ++ [.start n as]
        modified := false
        in_target := true } := by
    simp [utStep, hm, ha, h0]
  have hmid : utRun pat filt nt
      ({ stack := (utRun pat filt nt ⟨[], [], false, false⟩ pre).stack ++ [n]
         out := (utRun pat filt nt ⟨[], [], false, false⟩ pre).out ++ [.start n as]
         modified := false
         in_target := true } : UTState) mid =
      { stack := (utRun pat filt nt ⟨[], [], false, false⟩ pre).stack ++ [n]
        out := ((utRun pat filt nt ⟨[], [], false, false⟩ pre).out ++ [.start n as])
          ++ mid
        modified := false
        in_target := true } := by
    rw [utRun_passive pat filt nt mid _ hpass]
  have htext : utStep pat filt nt
      ({ stack := (utRun pat filt nt ⟨[], [], false, false⟩ pre).stack ++ [n]
         out := ((utRun pat filt nt ⟨[], [], false, false⟩ pre).out ++ [.start n as])
           ++ mid
         modified := false
         in_target := true } : UTState) (.text t) =
      { stack := (utRun pat filt nt ⟨[], [], false, false⟩ pre).stack ++ [n]
        out := (((utRun pat filt nt ⟨[], [], false, false⟩ pre).out ++ [.start n as])
          ++ mid) ++ [.text nt]
        modified := true
        in_target := true } := by
    simp [utStep]
  have hfin := utRun_verbatim_of_modified pat filt nt rest
    ({ stack := (utRun pat filt nt ⟨[], [], false, false⟩ pre).stack ++ [n]
       out := (((utRun pat filt nt ⟨[], [], false, false⟩ pre).out ++ [.start n as])
         ++ mid) ++ [.text nt]
       modified := true
       in_target := true } : UTState) rfl
  have hsplit : utRun pat filt nt ⟨[], [], false, false⟩
      (pre ++ .start n as :: (mid ++ .text t :: rest)) =
      utRun pat filt nt
        (utStep pat filt nt
          (utRun pat filt nt
            (utStep pat filt nt (utRun pat filt nt ⟨[], [], false, false⟩ pre)
              (.start n as)) mid) (.text t)) rest := by
    have e1 : pre ++ Event.start n as :: (mid ++ Event.text t :: rest) =
        ((pre ++ [Event.start n as]) ++ mid) ++ (Event.text t :: rest) := by
      simp
    rw [e1, utRun_append, utRun_append, utRun_append]
    rfl
  unfold update_text
  rw [hp]
  simp only [hsplit, hstep, hmid, htext, hfin.1, if_true]
  rw [hfin.2]
  simp [hpre]

/-- General insert-on-close behaviour of `update_text`: if the close
tag arrives while the target flag is still set (only passive events
since the matching open tag) and no text was seen, the new text is
inserted immediately before that close tag. -/
theorem ut_close_insert (pattern pat : Str) (filt : Option (Str × Str)) (nt : Str)
    (pre mid rest : List Event) (n : Str) (as : List (Str × Str)) (m : Str)
    (hp : parse_pattern pattern = some (pat, filt))
    (h0 : (utRun pat filt nt ⟨[], [], false, false⟩ pre).modified = false)
    (hm : path_matches
      (joinPath ((utRun pat filt nt ⟨[], [], false, false⟩ pre).stack ++ [n])) n pat
      = true)
    (ha : check_attr_filter as filt = true)
    (hpass : mid.all isPassive = true) :
    update_text (pre ++ .start n as :: (mid ++ .close m :: rest)) pattern nt =
      some (true, pre ++ .start n as :: (mid ++ .text nt :: .close m :: rest)) := by
  have hpre := (utRun_out_of_not_modified pat filt nt pre ⟨[], [], false, false⟩ h0).2
  simp only [UTState.out] at hpre
  rw [List.nil_append] at hpre
  have hstep : utStep pat filt nt (utRun pat filt nt ⟨[], [], false, false⟩ pre)
      (.start n as) =
      { stack := (utRun pat filt nt ⟨[], [], false, false⟩ pre).stack ++ [n]
        out := (utRun pat filt nt ⟨[], [], false, false⟩ pre).out ++ [.start n as]
        modified := false
        in_target := true } := by
    simp [utStep, hm, ha, h0]
  have hmid : utRun pat filt nt
      ({ stack := (utRun pat filt nt ⟨[], [], false, false⟩ pre).stack ++ [n]
         out := (utRun pat filt nt ⟨[], [], false, false⟩ pre).out ++ [.start n as]
         modified := false
         in_target := true } : UTState) mid =
      { stack := (utRun pat filt nt ⟨[], [], false, false⟩ pre).stack ++ [n]
        out := ((utRun pat filt nt ⟨[], [], false, false⟩ pre).out ++ [.start n as])
          ++ mid
        modified := false
        in_target := true } := by
    rw [utRun_passive pat filt nt mid _ hpass]
  have hclose : utStep pat filt nt
      ({ stack := (utRun pat filt nt ⟨[], [], false, false⟩ pre).stack ++ [n]
         out := ((utRun pat filt nt ⟨[], [], false, false⟩ pre).out ++ [.start n as])
           ++ mid
         modified := false
         in_target := true } : UTState) (.close m) =
      { stack := ((utRun pat filt nt ⟨[], [], false, false⟩ pre).stack ++ [n]).dropLast
        out := ((((utRun pat filt nt ⟨[], [], false, false⟩ pre).out ++ [.start n as])
          ++ mid) ++ [.text nt]) ++ [.close m]
        modified := true
        in_target := false } := by
    simp [utStep]
  have hfin := utRun_verbatim_of_modified pat filt nt rest
    ({ stack := ((utRun pat filt nt ⟨[], [], false, false⟩ pre).stack ++ [n]).dropLast
       out := ((((utRun pat filt nt ⟨[], [], false, false⟩ pre).out ++ [.start n as])
         ++ mid) ++ [.text nt]) ++ [.close m]
       modified := true
       in_target := false } : UTState) rfl
  have hsplit : utRun pat filt nt ⟨[], [], false, false⟩
      (pre ++ .start n as :: (mid ++ .close m :: rest)) =
      utRun pat filt nt
        (utStep pat filt nt
          (utRun pat filt nt
            (utStep pat filt nt (utRun pat filt nt ⟨[], [], false, false⟩ pre)
              (.start n as)) mid) (.close m)) rest := by
    have e1 : pre ++ Event.start n as :: (mid ++ Event.close m :: rest) =
        ((pre ++ [Event.start n as]) ++ mid) ++ (Event.close m :: rest) := by
      simp
    rw [e1, utRun_append, utRun_append, utRun_append]
    rfl
  unfold update_text
  rw [hp]
  simp only [hsplit, hstep, hmid, hclose, hfin.1, if_true]
  rw [hfin.2]
  simp [hpre]

/-- C1: for every document and pattern, each of the four mutators
either finds a match and installs the fully rewritten output as the new
content in a single swap, or finds no match, returns `false`, and
leaves the content identical to its value before the call: whenever a
call completes returning `false`, the returned content is exactly the
input document — no partial rewrite is ever committed. -/
theorem C1_no_match_leaves_content (doc : List Event) :
    (∀ p nt d, update_text doc p nt = some (false, d) → d = doc) ∧
    (∀ p an av d, set_attribute doc p an av = some (false, d) → d = doc) ∧
    (∀ p d, delete_element doc p = some (false, d) → d = doc) ∧
    (∀ p en ats txt d, insert_element doc p en ats txt = some (false, d) → d = doc) := by
  refine ⟨?_, ?_, ?_, ?_⟩
  · intro p nt d h
    unfold update_text at h
    cases hp : parse_pattern p with
    | none => rw [hp] at h; exact absurd h (by simp)
    | some pf =>
      rw [hp] at h
      obtain ⟨pat, filt⟩ := pf
      simp only [Option.some.injEq, Prod.mk.injEq] at h
      obtain ⟨h1, h2⟩ := h
      rw [h1] at h2
      simp only [Bool.false_eq_true, if_false] at h2
      exact h2.symm
  · intro p an av d h
    unfold set_attribute at h
    cases hp : parse_pattern p with
    | none => rw [hp] at h; exact absurd h (by simp)
    | some pf =>
      rw [hp] at h
      obtain ⟨pat, filt⟩ := pf
      simp only [Option.some.injEq, Prod.mk.injEq] at h
      obtain ⟨h1, h2⟩ := h
      rw [h1] at h2
      simp only [Bool.false_eq_true, if_false] at h2
      exact h2.symm
  · intro p d h
    unfold delete_element at h
    cases hp : parse_pattern p with
    | none => rw [hp] at h; exact absurd h (by simp)
    | some pf =>
      rw [hp] at h
      obtain ⟨pat, filt⟩ := pf
      simp only [Option.some.injEq, Prod.mk.injEq] at h
      obtain ⟨h1, h2⟩ := h
      rw [h1] at h2
      simp only [Bool.false_eq_true, if_false] at h2
      exact h2.symm
  · intro p en ats txt d h
    unfold insert_element at h
    cases hp : parse_pattern p with
    | none => rw [hp] at h; exact absurd h (by simp)
    | some pf =>
      rw [hp] at h
      obtain ⟨pat, filt⟩ := pf
      simp only [Option.some.injEq, Prod.mk.injEq] at h
      obtain ⟨h1, h2⟩ := h
      rw [h1] at h2
      simp only [Bool.false_eq_true, if_false] at h2
      exact h2.symm

/-- C1 witness: `update_text` with a pattern matching nothing returns
`false` and the untouched document. -/
theorem C1_no_match_leaves_content_witness :
    ([Event.start "a".toList [], Event.close "a".toList] : List Event) =
      [Event.start "a".toList [], Event.close "a".toList] :=
  (C1_no_match_leaves_content [Event.start "a".toList [], Event.close "a".toList]).1
    ("b".toList) ("Z".toList)
    [Event.start "a".toList [], Event.close "a".toList] (by decide)

/-- C2 counterexample: the claim says every mutating call modifies the
FIRST document-order element satisfying the pattern.  (i) `update_text`
on `<root><x><y/></y></x><x>t</x></root>`-shaped input with pattern
"x" modifies the SECOND satisfying element (the first has no directly
leading text, so its target flag is lost at the nested open tag);
(ii) `insert_element` on `<x><x/></x></x>`-shaped input with pattern
"x" inserts into the nested satisfying element, not the first one in
document order. -/
theorem C2_counterexample :
    (update_text
      [.start "root".toList [], .start "x".toList [], .start "y".toList [],
       .close "y".toList, .close "x".toList, .start "x".toList [],
       .text "t".toList, .close "x".toList, .close "root".toList]
      ("x".toList) ("Z".toList) =
      some (true,
      [.start "root".toList [], .start "x".toList [], .start "y".toList [],
       .close "y".toList, .close "x".toList, .start "x".toList [],
       .text "Z".toList, .close "x".toList, .close "root".toList])) ∧
    (insert_element
      [.start "x".toList [], .start "x".toList [], .close "x".toList,
       .close "x".toList] ("x".toList) ("c".toList) [] none =
      some (true,
      [.start "x".toList [], .start "x".toList [], .text "\n    ".toList,
       .empty "c".toList [], .text "\n  ".toList, .close "x".toList,
       .close "x".toList])) :=
  ⟨by decide, by decide⟩

/-- C2 amended: every mutating call performs at most one modification,
and all tokens outside the modified region are copied byte-for-byte:
`set_attribute` rewrites exactly the first document-order satisfying
open tag, `delete_element` suppresses exactly the subtree of the first
document-order satisfying open tag, and for all four mutators, once the
single modification has happened the whole remainder of the stream is
copied verbatim (so no call ever modifies two elements).  `update_text`
and `insert_element` may, as the counterexample shows, direct their
single modification at a later satisfying element than the first. -/
theorem C2_amended_single_edit :
    (∀ (pattern pat : Str) (filt : Option (Str × Str)) (an av : Str)
        (pre rest : List Event) (n : Str) (as : List (Str × Str)),
      parse_pattern pattern = some (pat, filt) →
      (saRun pat filt an av ⟨[], [], false⟩ pre).modified = false →
      path_matches
        (joinPath ((saRun pat filt an av ⟨[], [], false⟩ pre).stack ++ [n])) n pat
        = true →
      check_attr_filter as filt = true →
      set_attribute (pre ++ .start n as :: rest) pattern an av =
        some (true, pre ++ .start n (build_element_with_attr as an av) :: rest)) ∧
    (∀ (pattern pat : Str) (filt : Option (Str × Str))
        (pre body rest : List Event) (n m : Str) (as : List (Str × Str)),
      parse_pattern pattern = some (pat, filt) →
      (deRun pat filt ⟨[], [], false, none⟩ pre).modified = false →
      path_matches
        (joinPath ((deRun pat filt ⟨[], [], false, none⟩ pre).stack ++ [n])) n pat
        = true →
      check_attr_filter as filt = true →
      skipDelta 0 body = some 0 →
      delete_element (pre ++ .start n as :: (body ++ .close m :: rest)) pattern =
        some (true, pre ++ rest)) ∧
    (∀ (pat : Str) (filt : Option (Str × Str)) (nt : Str) (st : UTState)
        (rest : List Event), st.modified = true →
      (utRun pat filt nt st rest).out = st.out ++ rest) ∧
    (∀ (pat : Str) (filt : Option (Str × Str)) (an av : Str) (st : SAState)
        (rest : List Event), st.modified = true →
      (saRun pat filt an av st rest).out = st.out ++ rest) ∧
    (∀ (pat : Str) (filt : Option (Str × Str)) (st : DEState)
        (rest : List Event), st.modified = true → st.skip_depth = none →
      (deRun pat filt st rest).out = st.out ++ rest) ∧
    (∀ (pat : Str) (filt : Option (Str × Str)) (en : Str)
        (ats : List (Str × Str)) (txt : Option Str) (st : IEState)
        (rest : List Event), st.modified = true → st.target_depth = none →
      (ieRun pat filt en ats txt st rest).out = st.out ++ rest) := by
  refine ⟨sa_first_match, de_first_match, ?_, ?_, ?_, ?_⟩
  · intro pat filt nt st rest h
    exact (utRun_verbatim_of_modified pat filt nt rest st h).2
  · intro pat filt an av st rest h
    exact (saRun_verbatim_of_modified pat filt an av rest st h).2
  · intro pat filt st rest h hs
    exact (deRun_verbatim_of_modified pat filt rest st h hs).2.2
  · intro pat filt en ats txt st rest h ht
    exact (ieRun_verbatim_of_modified pat filt en ats txt rest st h ht).2.2

/-- C2 amended witness: concrete instances of every conjunct. -/
theorem C2_amended_single_edit_witness :
    ( set_attribute
      [.start "a".toList [], .start "b".toList [], .close "b".toList,
       .close "a".toList] ("b".toList) ("k".toList) ("v".toList) =
      some (true,
      [.start "a".toList [], .start "b".toList [("k".toList, "v".toList)],
       .close "b".toList, .close "a".toList])) ∧
    (delete_element
      [.start "a".toList [], .start "b".toList [], .text "x".toList,
       .close "b".toList, .close "a".toList] ("b".toList) =
      some (true, [.start "a".toList [], .close "a".toList])) ∧
    ((utRun ("p".toList) none ("q".toList) ⟨[], [], true, false⟩
      [.text "w".toList]).out = [.text "w".toList]) ∧
    ((saRun ("p".toList) none ("k".toList) ("v".toList) ⟨[], [], true⟩
      [.text "w".toList]).out = [.text "w".toList]) ∧
    ((deRun ("p".toList) none ⟨[], [], true, none⟩
      [.text "w".toList]).out = [.text "w".toList]) ∧
    ((ieRun ("p".toList) none ("c".toList) [] none ⟨[], [], true, none⟩
      [.text "w".toList]).out = [.text "w".toList]) := by
  refine ⟨?_, ?_, ?_, ?_, ?_, ?_⟩
  · exact C2_amended_single_edit.1 ("b".toList) ("b".toList) none ("k".toList)
      ("v".toList) [.start "a".toList []]
      [.close "b".toList, .close "a".toList] ("b".toList) []
      (by decide) (by decide) (by decide) (by decide)
  · exact C2_amended_single_edit.2.1 ("b".toList) ("b".toList) none
      [.start "a".toList []] [.text "x".toList] [.close "a".toList]
      ("b".toList) ("b".toList) []
      (by decide) (by decide) (by decide) (by decide) (by decide)
  · exact C2_amended_single_edit.2.2.1 ("p".toList) none ("q".toList)
      ⟨[], [], true, false⟩ [.text "w".toList] rfl
  · exact C2_amended_single_edit.2.2.2.1 ("p".toList) none ("k".toList)
      ("v".toList) ⟨[], [], true⟩ [.text "w".toList] rfl
  · exact C2_amended_single_edit.2.2.2.2.1 ("p".toList) none
      ⟨[], [], true, none⟩ [.text "w".toList] rfl rfl
  · exact C2_amended_single_edit.2.2.2.2.2 ("p".toList) none ("c".toList) []
      none ⟨[], [], true, none⟩ [.text "w".toList] rfl rfl

/-- C3 counterexample: the claim says a suffix whose first segment is
only part of an element name does not match ("tem" against
"root/item"), but `path_matches` uses raw string `ends_with`, so it
does match. -/
theorem C3_counterexample :
    path_matches ("root/item".toList) ("item".toList) ("tem".toList) = true := by
  decide

/-- C3 amended: `path_matches(element_path, element_name, path_suffix)`
returns true exactly when `element_path` ends with `path_suffix` as a
raw string suffix (equality of the two included), or `path_suffix`
contains no '/' and `element_name` equals `path_suffix`.  Matching is
NOT restricted to whole path segments: a suffix whose first segment is
only part of an element name still matches. -/
theorem C3_amended_raw_suffix (cp n pat : Str) :
    path_matches cp n pat = true ↔
      (pat <:+ cp ∨ (('/' ∉ pat) ∧ n = pat)) := by
  unfold path_matches
  by_cases h : '/' ∈ pat
  · have hc : pat.contains '/' = true := by
      simpa using h
    rw [if_pos hc]
    simp only [Bool.or_eq_true, List.isSuffixOf_iff_suffix, beq_iff_eq]
    constructor
    · rintro (hs | he)
      · exact Or.inl hs
      · exact Or.inl (he ▸ List.suffix_refl _)
    · rintro (hs | ⟨hmem, _⟩)
      · exact Or.inl hs
      · exact absurd h hmem
  · have hc : ¬(pat.contains '/' = true) := by
      simpa using h
    rw [if_neg hc]
    simp only [Bool.or_eq_true, List.isSuffixOf_iff_suffix, beq_iff_eq]
    constructor
    · rintro ((hs | he) | hn)
      · exact Or.inl hs
      · exact Or.inl (he ▸ List.suffix_refl _)
      · exact Or.inr ⟨h, hn⟩
    · rintro (hs | ⟨-, hn⟩)
      · exact Or.inl (Or.inl hs)
      · exact Or.inr hn

/-- C4 counterexample: the claim says a self-closing element always has
`text` absent and text attaches to the element it is directly inside
of; but the text run following `<b/>` inside `root` is attached to the
self-closing `b` record (the most recently appended element). -/
theorem C4_counterexample :
    get_structure
      [.start "root".toList [], .empty "b".toList [], .text " x ".toList,
       .close "root".toList] =
      [{ path := "root".toList, name := "root".toList, attributes := [],
         text := none, depth := 0 },
       { path := "root/b".toList, name := "b".toList, attributes := [],
         text := some "x".toList, depth := 1 }] := by
  decide

/-- C4 amended: each non-whitespace run of character data is attached
to the most recently appended element record, overwriting any text that
record already had — so the LAST such run before the next element start
wins, a run after a nested child closes attaches to that child rather
than its parent, and a self-closing element record can carry the text
run that follows it. -/
theorem C4_amended_last_text_wins (es : List XmlElement) (e : XmlElement)
    (stack : List Str) (s : Str) (h : ¬(trimWs s = [])) :
    gsStep ⟨es ++ [e], stack⟩ (.text s) =
      ⟨es ++ [{ e with text := some (trimWs s) }], stack⟩ := by
  simp only [gsStep]
  rw [if_neg h, setLastText_append]

/-- C4 amended witness: a later text run overwrites the text an element
record already carried. -/
theorem C4_amended_last_text_wins_witness :
    gsStep ⟨[{ path := "r".toList, name := "r".toList, attributes := [],
               text := some "old".toList, depth := 0 }], ["r".toList]⟩
        (.text "new".toList) =
      ⟨[{ path := "r".toList, name := "r".toList, attributes := [],
          text := some "new".toList, depth := 0 }], ["r".toList]⟩ :=
  C4_amended_last_text_wins []
    { path := "r".toList, name := "r".toList, attributes := [],
      text := some "old".toList, depth := 0 }
    ["r".toList] ("new".toList) (by decide)

/-- C5 counterexample: the claim says the first character-data token
encountered anywhere inside the first matching element — including
after a nested child element closes — is replaced, and that the call
returns true; on `<a><b>x</b>y</a>` with pattern "a" the code replaces
nothing and returns false, because the target flag is recomputed at the
nested open tag and cleared at every close tag. -/
theorem C5_counterexample :
    update_text
      [.start "a".toList [], .start "b".toList [], .text "x".toList,
       .close "b".toList, .text "y".toList, .close "a".toList]
      ("a".toList) ("Z".toList) =
      some (false,
      [.start "a".toList [], .start "b".toList [], .text "x".toList,
       .close "b".toList, .text "y".toList, .close "a".toList]) := by
  decide

/-- C5 amended: on entering the first element whose path and predicate
match, the target flag is set, but it is recomputed at every subsequent
open tag and cleared at every close tag; hence (i) a character-data
token is replaced by `new_text` only when it is separated from the
matching open tag by passive events alone (self-closing tags, comments,
CData, processing instructions), and (ii) when a close tag arrives
while the flag is still set and nothing was replaced, `new_text` is
inserted immediately before that close tag; in both cases the call
returns true and all other tokens are copied verbatim. -/
theorem C5_amended_leading_window :
    (∀ (pattern pat : Str) (filt : Option (Str × Str)) (nt : Str)
        (pre mid rest : List Event) (n : Str) (as : List (Str × Str)) (t : Str),
      parse_pattern pattern = some (pat, filt) →
      (utRun pat filt nt ⟨[], [], false, false⟩ pre).modified = false →
      path_matches
        (joinPath ((utRun pat filt nt ⟨[], [], false, false⟩ pre).stack ++ [n])) n
        pat = true →
      check_attr_filter as filt = true →
      mid.all isPassive = true →
      update_text (pre ++ .start n as :: (mid ++ .text t :: rest)) pattern nt =
        some (true, pre ++ .start n as :: (mid ++ .text nt :: rest))) ∧
    (∀ (pattern pat : Str) (filt : Option (Str × Str)) (nt : Str)
        (pre mid rest : List Event) (n : Str) (as : List (Str × Str)) (m : Str),
      parse_pattern pattern = some (pat, filt) →
      (utRun pat filt nt ⟨[], [], false, false⟩ pre).modified = false →
      path_matches
        (joinPath ((utRun pat filt nt ⟨[], [], false, false⟩ pre).stack ++ [n])) n
        pat = true →
      check_attr_filter as filt = true →
      mid.all isPassive = true →
      update_text (pre ++ .start n as :: (mid ++ .close m :: rest)) pattern nt =
        some (true, pre ++ .start n as :: (mid ++ .text nt :: .close m :: rest))) :=
  ⟨ut_window, ut_close_insert⟩

/-- C5 amended witness: a text token separated from the matching open
tag only by a self-closing child is replaced; an empty matching element
receives the new text before its close tag. -/
theorem C5_amended_leading_window_witness :
    (update_text
      [.start "r".toList [], .start "a".toList [], .empty "c".toList [],
       .text "x".toList, .close "a".toList, .close "r".toList]
      ("a".toList) ("Z".toList) =
      some (true,
      [.start "r".toList [], .start "a".toList [], .empty "c".toList [],
       .text "Z".toList, .close "a".toList, .close "r".toList])) ∧
    (update_text
      [.start "r".toList [], .start "a".toList [], .close "a".toList,
       .close "r".toList] ("a".toList) ("Z".toList) =
      some (true,
      [.start "r".toList [], .start "a".toList [], .text "Z".toList,
       .close "a".toList, .close "r".toList])) := by
  constructor
  · exact C5_amended_leading_window.1 ("a".toList) ("a".toList) none
      ("Z".toList) [.start "r".toList []] [.empty "c".toList []]
      [.close "a".toList, .close "r".toList] ("a".toList) [] ("x".toList)
      (by decide) (by decide) (by decide) (by decide) (by decide)
  · exact C5_amended_leading_window.2 ("a".toList) ("a".toList) none
      ("Z".toList) [.start "r".toList []] []
      [.close "r".toList] ("a".toList) [] ("a".toList)
      (by decide) (by decide) (by decide) (by decide) (by decide)

/-- C6 counterexample: the claim says the attribute value keeps its
inner quotes after exactly one layer of surrounding quotes is stripped,
so `parse_pattern("a[@k=''x'']")` would give the value `'x'`; the code
strips ALL surrounding quote characters and gives `x`. -/
theorem C6_counterexample :
    parse_pattern ("a[@k=''x'']".toList) ≠
      some ("a".toList, some ("k".toList, "'x'".toList)) := by
  decide

/-- C6 amended: `parse_pattern` splits at the first "[@" and the first
"]" with an "=" inside the brackets into path and (name, value), where
the value has EVERY surrounding single quote stripped and then every
surrounding double quote stripped (`trim_matches`, not a single layer):
`parse_pattern("item[@id='123']") = ("item", Some(("id","123")))`,
`parse_pattern("root/items/item") = ("root/items/item", None)`, and
`parse_pattern("a[@k=''x'']")` yields the value `x`, as does a value
wrapped in both quote kinds. -/
theorem C6_amended_trim_all_layers :
    parse_pattern ("item[@id='123']".toList) =
      some ("item".toList, some ("id".toList, "123".toList)) ∧
    parse_pattern ("root/items/item".toList) =
      some ("root/items/item".toList, none) ∧
    parse_pattern ("a[@k=''x'']".toList) =
      some ("a".toList, some ("k".toList, "x".toList)) ∧
    parse_pattern ("a[@k='\"x\"']".toList) =
      some ("a".toList, some ("k".toList, "x".toList)) :=
  ⟨by decide, by decide, by decide, by decide⟩

/-- C7 (code bug): the spec requires the self-closing parent to be
expanded LOSSLESSLY, retaining every attribute, but `insert_element`
expands it with `BytesStart::new(&name)`, an open tag with no
attributes: on `<root><items id="1"/></root>` the expanded `items`
open tag has lost `id="1"`. -/
theorem C7_expansion_drops_attributes :
    insert_element
      [.start "root".toList [],
       .empty "items".toList [("id".toList, "1".toList)],
       .close "root".toList]
      ("items".toList) ("item".toList) [] none =
      some (true,
      [.start "root".toList [], .start "items".toList [],
       .text "\n    ".toList, .empty "item".toList [], .text "\n  ".toList,
       .close "items".toList, .close "root".toList]) := by
  decide

/-- C8 (code bug): `parse_pattern` computes `find("[@")` and `find(']')`
independently from the start of the string, so on a pattern whose first
"]" precedes the "[@" the slice `pattern[bracket_start+2..bracket_end]`
has start > end and panics; the panic (modelled as `none`) propagates
through every mutator instead of an `Ok`/declared-error result. -/
theorem C8_parse_pattern_panics :
    parse_pattern ("]a[@x=y]".toList) = none ∧
    update_text [.start "a".toList [], .close "a".toList]
      ("]a[@x=y]".toList) ("Z".toList) = none ∧
    set_attribute [.start "a".toList [], .close "a".toList]
      ("]a[@x=y]".toList) ("k".toList) ("v".toList) = none ∧
    delete_element [.start "a".toList [], .close "a".toList]
      ("]a[@x=y]".toList) = none ∧
    insert_element [.start "a".toList [], .close "a".toList]
      ("]a[@x=y]".toList) ("c".toList) [] none = none :=
  ⟨by decide, by decide, by decide, by decide, by decide⟩

/-- C9 (code bug): the claim says text longer than 50 characters is
truncated to its first 50 characters for every element record,
including multi-byte text; `XmlElement::display` compares and slices at
BYTE 50: on a text of 17 three-byte characters (51 bytes) the slice
`&t[..50]` falls inside a character and panics (modelled as `none`),
and on a text of 26 two-byte characters it truncates after 25
characters although the text is only 26 characters long.  Pure-ASCII
records display as the claim describes. -/
theorem C9_display_byte_truncation :
    XmlElement.display
      { path := "p".toList, name := "p".toList, attributes := [],
        text := some (List.replicate 17 '€'), depth := 0 } = none ∧
    XmlElement.display
      { path := "p".toList, name := "p".toList, attributes := [],
        text := some (List.replicate 26 '©'), depth := 0 } =
      some ("p".toList ++ ([':', ' ', '"'] ++
        (List.replicate 25 '©' ++ "...".toList) ++ ['"'])) ∧
    XmlElement.display
      { path := "root/item".toList, name := "item".toList,
        attributes := [("id".toList, "1".toList)],
        text := some "hello".toList, depth := 1 } =
      some ("root/item [id=\"1\"]: \"hello\"".toList) :=
  ⟨by decide, by decide, by decide⟩

/-- C10: `update_text` never matches a self-closing element — its event
loop handles `Empty` events in the pass-through arm, so for every
document in which no open tag satisfies the pattern (in particular when
every satisfying element is written self-closing) it returns `false`
and leaves the content unchanged — while `set_attribute` and
`delete_element` do match a self-closing element for the same
pattern. -/
theorem C10_update_text_ignores_self_closing :
    (∀ (doc : List Event) (pattern nt pat : Str) (filt : Option (Str × Str)),
      parse_pattern pattern = some (pat, filt) →
      noMatchingStart pat filt [] doc = true →
      update_text doc pattern nt = some (false, doc)) ∧
    set_attribute
      [.start "root".toList [], .empty "item".toList [], .close "root".toList]
      ("item".toList) ("a".toList) ("b".toList) =
      some (true,
      [.start "root".toList [], .empty "item".toList [("a".toList, "b".toList)],
       .close "root".toList]) ∧
    delete_element
      [.start "root".toList [], .empty "item".toList [], .close "root".toList]
      ("item".toList) =
      some (true, [.start "root".toList [], .close "root".toList]) := by
  refine ⟨?_, by decide, by decide⟩
  intro doc pattern nt pat filt hp hn
  have hmod := utRun_of_noMatchingStart pat filt nt doc ⟨[], [], false, false⟩
    rfl rfl hn
  unfold update_text
  rw [hp]
  simp [hmod]

/-- C10 witness: on a document whose only satisfying element is
self-closing, `update_text` returns `false` and the untouched
content. -/
theorem C10_update_text_ignores_self_closing_witness :
    update_text
      [.start "root".toList [], .empty "item".toList [], .close "root".toList]
      ("item".toList) ("Z".toList) =
      some (false,
      [.start "root".toList [], .empty "item".toList [], .close "root".toList]) :=
  C10_update_text_ignores_self_closing.1
    [.start "root".toList [], .empty "item".toList [], .close "root".toList]
    ("item".toList) ("Z".toList) ("item".toList) none (by decide) (by decide)

end Z
